import Mathlib

set_option autoImplicit false

/-!
Verification of the node lifecycle controller in `heartbeat_table.py`
(class `HpcClusterManager`).

Shallow-embedding conventions used throughout:
* Python `dict` (which preserves insertion order, updates in place, appends
  new keys) is modelled as an association list `List (String × α)` with
  `lookupTbl` / `tableInsert`.
* Python `set` is modelled as a `List String` used with membership; `discard`
  removes every occurrence.
* `datetime` instants and `timedelta` durations are modelled as `Int`
  (`now - last_heartbeat >= timeout` becomes `timeout ≤ now - last_heartbeat`).
  All `datetime.now()` calls inside a single method invocation are modelled
  as the single instant passed as the `now` argument.
* `str.upper()` is modelled by `pyUpper` (character-wise upper-casing) and
  `fqdn.split('.')[0]` by `hostnameOfFqdn` (characters before the first dot).
* The REST client (`HpcRestClient`, deliberately out of scope of the
  repository's core) is modelled as data passed in: the status list a
  `get_node_status_exact` call returns, and booleans saying whether a
  side-effecting call raises.  Calls whose exceptions the source swallows
  cannot influence the pure result.
-/

/-- HpcState models the `HpcState` enumeration of `heartbeat_table.py`:
`Unknown, Provisioning, Configuring, Running, Draining, Closing, Closed = range(7)`. -/
inductive HpcState where
  | Unknown
  | Provisioning
  | Configuring
  | Running
  | Draining
  | Closing
  | Closed
deriving DecidableEq, Repr

/-- SlaveInfo models the namedtuple
`SlaveInfo = namedtuple("SlaveInfo", "hostname fqdn agent_id task_id cpus last_heartbeat state")`.
`cpus` (a Python float used only as opaque payload here) and the
`last_heartbeat` instant are modelled as integers. -/
structure SlaveInfo where
  hostname : String
  fqdn : String
  agent_id : String
  task_id : String
  cpus : Int
  last_heartbeat : Int
  state : HpcState
deriving DecidableEq, Repr

/-- HeartBeatTable models `self._heart_beat_table`, a Python dict from
hostname to `SlaveInfo`, as an insertion-ordered association list. -/
abbrev HeartBeatTable := List (String × SlaveInfo)

/-- lookupTbl models Python dict lookup `tbl[key]` / `key in tbl`. -/
def lookupTbl {α : Type} : List (String × α) → String → Option α
  | [], _ => none
  | (k, v) :: rest, key => if k = key then some v else lookupTbl rest key

/-- tableInsert models Python dict assignment `tbl[key] = v`: an existing key
is overwritten in place, a new key is appended at the end. -/
def tableInsert {α : Type} : List (String × α) → String → α → List (String × α)
  | [], key, v => [(key, v)]
  | (k, w) :: rest, key, v =>
      if k = key then (key, v) :: rest else (k, w) :: tableInsert rest key v

/-- pyUpper models Python `str.upper()` (character-wise upper-casing). -/
def pyUpper (s : String) : String := ⟨s.data.map Char.toUpper⟩

/-- hostnameOfFqdn models `self.__get_hostname_from_fqdn(fqdn)`, that is
`fqdn.split('.')[0]`: the characters before the first dot. -/
def hostnameOfFqdn (fqdn : String) : String := ⟨fqdn.data.takeWhile (fun c => c ≠ '.')⟩

/-- upperStrings models `self._upper_strings(strs)`: upper-case every element. -/
def upperStrings (strs : List String) : List String := strs.map pyUpper

/-- add_slaveinfo models `HpcClusterManager.add_slaveinfo` (the spec's
`add_node`): upper-case the fqdn, derive the hostname, reject on a
duplicate hostname with a different fqdn, otherwise (also when the
existing entry is `Closed` or has an equal fqdn) store a fresh record in
state `Provisioning` with the supplied heartbeat instant. -/
def add_slaveinfo (tbl : HeartBeatTable) (fqdn agent_id task_id : String)
    (cpus last_heartbeat : Int) : HeartBeatTable :=
  let u_fqdn := pyUpper fqdn
  let hostname := hostnameOfFqdn u_fqdn
  match lookupTbl tbl hostname with
  | some info =>
      if info.fqdn ≠ u_fqdn then
        tbl
      else
        tableInsert tbl hostname
          ⟨hostname, u_fqdn, agent_id, task_id, cpus, last_heartbeat, HpcState.Provisioning⟩
  | none =>
      tableInsert tbl hostname
        ⟨hostname, u_fqdn, agent_id, task_id, cpus, last_heartbeat, HpcState.Provisioning⟩

/-- on_slave_heartbeat models `HpcClusterManager.on_slave_heartbeat`: look up
the upper-cased hostname; if absent drop; otherwise store the record with
`last_heartbeat` replaced, re-read it, and if its state is `Provisioning`
store it again with state `Configuring`. -/
def on_slave_heartbeat (tbl : HeartBeatTable) (hostname : String) (now : Int) : HeartBeatTable :=
  let u_hostname := pyUpper hostname
  match lookupTbl tbl u_hostname with
  | none => tbl
  | some info =>
      let tbl1 := tableInsert tbl u_hostname { info with last_heartbeat := now }
      match lookupTbl tbl1 u_hostname with
      | none => tbl1
      | some info1 =>
          if info1.state = HpcState.Provisioning then
            tableInsert tbl1 u_hostname { info1 with state := HpcState.Configuring }
          else
            tbl1

theorem lookupTbl_tableInsert_self {α : Type} (tbl : List (String × α)) (k : String) (v : α) :
    lookupTbl (tableInsert tbl k v) k = some v := by
  induction tbl with
  | nil => simp [tableInsert, lookupTbl]
  | cons p rest ih =>
      obtain ⟨k1, v1⟩ := p
      by_cases h : k1 = k <;> simp [tableInsert, lookupTbl, h, ih]

theorem lookupTbl_tableInsert_ne {α : Type} (tbl : List (String × α)) (k k2 : String) (v : α)
    (h : k2 ≠ k) : lookupTbl (tableInsert tbl k v) k2 = lookupTbl tbl k2 := by
  induction tbl with
  | nil => simp [tableInsert, lookupTbl, Ne.symm h]
  | cons p rest ih =>
      obtain ⟨k1, v1⟩ := p
      by_cases h1 : k1 = k
      · subst h1
        simp [tableInsert, lookupTbl, Ne.symm h]
      · by_cases h2 : k1 = k2 <;> simp [tableInsert, lookupTbl, h1, h2, h, ih]

/-- C4: `add_slaveinfo` rejects a duplicate hostname carrying a different
fqdn and leaves the table entirely unchanged; in every accepted case (the
hostname is absent, or present with an equal fqdn — in particular the
non-`Closed` overwrite case) it stores a record in state `Provisioning`
whose `last_heartbeat` is the supplied instant, touching no other key. -/
theorem add_slaveinfo_spec (tbl : HeartBeatTable) (fqdn agent_id task_id : String)
    (cpus now : Int) :
    (∀ info, lookupTbl tbl (hostnameOfFqdn (pyUpper fqdn)) = some info →
        info.fqdn ≠ pyUpper fqdn →
        add_slaveinfo tbl fqdn agent_id task_id cpus now = tbl) ∧
    ((lookupTbl tbl (hostnameOfFqdn (pyUpper fqdn)) = none ∨
      (∃ info, lookupTbl tbl (hostnameOfFqdn (pyUpper fqdn)) = some info ∧
        info.fqdn = pyUpper fqdn)) →
      lookupTbl (add_slaveinfo tbl fqdn agent_id task_id cpus now)
          (hostnameOfFqdn (pyUpper fqdn)) =
        some ⟨hostnameOfFqdn (pyUpper fqdn), pyUpper fqdn, agent_id, task_id, cpus, now,
          HpcState.Provisioning⟩ ∧
      ∀ k, k ≠ hostnameOfFqdn (pyUpper fqdn) →
        lookupTbl (add_slaveinfo tbl fqdn agent_id task_id cpus now) k = lookupTbl tbl k) := by
  constructor
  · intro info hlook hne
    simp [add_slaveinfo, hlook, hne]
  · intro hacc
    rcases hacc with hnone | ⟨info, hlook, hfq⟩
    · refine ⟨by simp [add_slaveinfo, hnone, lookupTbl_tableInsert_self], ?_⟩
      intro k hk
      simp [add_slaveinfo, hnone, lookupTbl_tableInsert_ne _ _ _ _ hk]
    · refine ⟨by simp [add_slaveinfo, hlook, hfq, lookupTbl_tableInsert_self], ?_⟩
      intro k hk
      simp [add_slaveinfo, hlook, hfq, lookupTbl_tableInsert_ne _ _ _ _ hk]

/-- Witness for C4: a concrete rejected add (different fqdn for hostname
`H1`) and a concrete accepted add into the empty table. -/
theorem add_slaveinfo_spec_witness :
    add_slaveinfo [("H1", ⟨"H1", "H1.X", "a", "t", 1, 0, HpcState.Running⟩)] "h1.y" "a2" "t2" 2 5 =
      [("H1", ⟨"H1", "H1.X", "a", "t", 1, 0, HpcState.Running⟩)] ∧
    lookupTbl (add_slaveinfo [] "h2.ex" "a" "t" 4 7) (hostnameOfFqdn (pyUpper "h2.ex")) =
      some ⟨hostnameOfFqdn (pyUpper "h2.ex"), pyUpper "h2.ex", "a", "t", 4, 7,
        HpcState.Provisioning⟩ :=
  ⟨(add_slaveinfo_spec [("H1", ⟨"H1", "H1.X", "a", "t", 1, 0, HpcState.Running⟩)]
      "h1.y" "a2" "t2" 2 5).1
    ⟨"H1", "H1.X", "a", "t", 1, 0, HpcState.Running⟩ (by decide) (by decide),
   ((add_slaveinfo_spec [] "h2.ex" "a" "t" 4 7).2 (Or.inl (by decide))).1⟩

/-- C5: `on_slave_heartbeat` with an unknown (upper-cased) hostname leaves
the table unchanged; with a known hostname it sets that record's
`last_heartbeat` to `now`, moves `Provisioning` to `Configuring`, leaves
every other state unchanged, and touches no other key. -/
theorem on_slave_heartbeat_spec (tbl : HeartBeatTable) (hostname : String) (now : Int) :
    (lookupTbl tbl (pyUpper hostname) = none → on_slave_heartbeat tbl hostname now = tbl) ∧
    (∀ info, lookupTbl tbl (pyUpper hostname) = some info →
      lookupTbl (on_slave_heartbeat tbl hostname now) (pyUpper hostname) =
        some ⟨info.hostname, info.fqdn, info.agent_id, info.task_id, info.cpus, now,
          (if info.state = HpcState.Provisioning then HpcState.Configuring else info.state)⟩ ∧
      ∀ k, k ≠ pyUpper hostname →
        lookupTbl (on_slave_heartbeat tbl hostname now) k = lookupTbl tbl k) := by
  constructor
  · intro h
    simp [on_slave_heartbeat, h]
  · intro info hlook
    obtain ⟨hn, fq, aid, tid, cp, lh, st⟩ := info
    have h1 : lookupTbl (tableInsert tbl (pyUpper hostname) ⟨hn, fq, aid, tid, cp, now, st⟩)
        (pyUpper hostname) = some ⟨hn, fq, aid, tid, cp, now, st⟩ :=
      lookupTbl_tableInsert_self _ _ _
    by_cases hst : st = HpcState.Provisioning
    · subst hst
      refine ⟨by simp [on_slave_heartbeat, hlook, h1, lookupTbl_tableInsert_self], ?_⟩
      intro k hk
      simp [on_slave_heartbeat, hlook, h1,
        lookupTbl_tableInsert_ne _ _ _ _ hk]
    · refine ⟨by simp [on_slave_heartbeat, hlook, h1, hst], ?_⟩
      intro k hk
      simp [on_slave_heartbeat, hlook, h1, hst,
        lookupTbl_tableInsert_ne _ _ _ _ hk]

/-- Witness for C5: a heartbeat for a hostname absent from the empty table
is dropped, and a heartbeat for a `Provisioning` record updates the
instant and moves it to `Configuring`. -/
theorem on_slave_heartbeat_spec_witness :
    on_slave_heartbeat [] "h9" 3 = [] ∧
    lookupTbl
        (on_slave_heartbeat [("H3", ⟨"H3", "H3.EX", "a", "t", 1, 0, HpcState.Provisioning⟩)]
          "h3" 9)
        (pyUpper "h3") =
      some ⟨"H3", "H3.EX", "a", "t", 1, 9, HpcState.Configuring⟩ := by
  constructor
  · exact (on_slave_heartbeat_spec [] "h9" 3).1 (by decide)
  · have h := ((on_slave_heartbeat_spec
        [("H3", ⟨"H3", "H3.EX", "a", "t", 1, 0, HpcState.Provisioning⟩)] "h3" 9).2
      ⟨"H3", "H3.EX", "a", "t", 1, 0, HpcState.Provisioning⟩ (by decide)).1
    exact h.trans (by decide)

/-- tableValues models iteration over `dict(tbl).itervalues()`. -/
def tableValues {α : Type} (tbl : List (String × α)) : List α := tbl.map Prod.snd

/-- check_timeout models `HpcClusterManager.check_timeout`: walk the table
values; a `Provisioning` record whose heartbeat is at least
`provisioning_timeout` old goes to the first list; a `Running` record whose
heartbeat is at least `heartbeat_timeout` old goes to the second, other
`Running` records to the third; every other record is skipped. -/
def check_timeout : HeartBeatTable → Int → Int → Int →
    List SlaveInfo × List SlaveInfo × List SlaveInfo
  | [], _, _, _ => ([], [], [])
  | (_, host) :: rest, now, provisioning_timeout, heartbeat_timeout =>
      let r := check_timeout rest now provisioning_timeout heartbeat_timeout
      if host.state = HpcState.Provisioning ∧
          provisioning_timeout ≤ now - host.last_heartbeat then
        (host :: r.1, r.2.1, r.2.2)
      else if host.state = HpcState.Running then
        if heartbeat_timeout ≤ now - host.last_heartbeat then
          (r.1, host :: r.2.1, r.2.2)
        else
          (r.1, r.2.1, host :: r.2.2)
      else
        r

theorem check_timeout_mem (tbl : HeartBeatTable) (now pTO hTO : Int) (host : SlaveInfo) :
    (host ∈ (check_timeout tbl now pTO hTO).1 ↔
      host ∈ tableValues tbl ∧ host.state = HpcState.Provisioning ∧
        pTO ≤ now - host.last_heartbeat) ∧
    (host ∈ (check_timeout tbl now pTO hTO).2.1 ↔
      host ∈ tableValues tbl ∧ host.state = HpcState.Running ∧
        hTO ≤ now - host.last_heartbeat) ∧
    (host ∈ (check_timeout tbl now pTO hTO).2.2 ↔
      host ∈ tableValues tbl ∧ host.state = HpcState.Running ∧
        now - host.last_heartbeat < hTO) := by
  induction tbl with
  | nil => simp [check_timeout, tableValues]
  | cons p rest ih =>
      obtain ⟨k, h⟩ := p
      obtain ⟨ih1, ih2, ih3⟩ := ih
      by_cases h1 : h.state = HpcState.Provisioning ∧ pTO ≤ now - h.last_heartbeat
      · by_cases hh : host = h
        · subst hh
          simp [check_timeout, tableValues, h1, ih1, ih2, ih3, h1.1, h1.2]
        · simp [check_timeout, tableValues, h1, ih1, ih2, ih3, hh]
      · by_cases h2 : h.state = HpcState.Running
        · by_cases h3 : hTO ≤ now - h.last_heartbeat
          · by_cases hh : host = h
            · subst hh
              simp [check_timeout, tableValues, h1, h2, h3, ih1, ih2, ih3, not_lt.mpr h3]
            · simp [check_timeout, tableValues, h1, h2, h3, ih1, ih2, ih3, hh]
          · by_cases hh : host = h
            · subst hh
              simp [check_timeout, tableValues, h1, h2, h3, ih1, ih2, ih3, not_le.mp h3]
            · simp [check_timeout, tableValues, h1, h2, h3, ih1, ih2, ih3, hh]
        · by_cases h4 : h.state = HpcState.Provisioning
          · have h5 : ¬ pTO ≤ now - h.last_heartbeat := fun hc => h1 ⟨h4, hc⟩
            by_cases hh : host = h
            · subst hh
              simp [check_timeout, tableValues, h1, h2, h4, h5, ih1, ih2, ih3]
            · simp [check_timeout, tableValues, h1, h2, ih1, ih2, ih3, hh]
          · by_cases hh : host = h
            · subst hh
              simp [check_timeout, tableValues, h1, h2, h4, ih1, ih2, ih3]
            · simp [check_timeout, tableValues, h1, h2, ih1, ih2, ih3, hh]

/-- C6: `check_timeout` returns three pairwise-disjoint lists:
`provision_timeout` holds exactly the `Provisioning` records whose
heartbeat age is at least `provisioning_timeout`, `heartbeat_timeout`
exactly the `Running` records whose age is at least `heartbeat_timeout`
(equality triggers), `running_ok` exactly the remaining `Running`
records, and records in any other state appear in no list. -/
theorem check_timeout_classifies (tbl : HeartBeatTable) (now pTO hTO : Int) (host : SlaveInfo) :
    (host ∈ (check_timeout tbl now pTO hTO).1 ↔
      host ∈ tableValues tbl ∧ host.state = HpcState.Provisioning ∧
        pTO ≤ now - host.last_heartbeat) ∧
    (host ∈ (check_timeout tbl now pTO hTO).2.1 ↔
      host ∈ tableValues tbl ∧ host.state = HpcState.Running ∧
        hTO ≤ now - host.last_heartbeat) ∧
    (host ∈ (check_timeout tbl now pTO hTO).2.2 ↔
      host ∈ tableValues tbl ∧ host.state = HpcState.Running ∧
        now - host.last_heartbeat < hTO) ∧
    (host.state ≠ HpcState.Provisioning → host.state ≠ HpcState.Running →
      host ∉ (check_timeout tbl now pTO hTO).1 ∧
      host ∉ (check_timeout tbl now pTO hTO).2.1 ∧
      host ∉ (check_timeout tbl now pTO hTO).2.2) ∧
    ¬(host ∈ (check_timeout tbl now pTO hTO).1 ∧ host ∈ (check_timeout tbl now pTO hTO).2.1) ∧
    ¬(host ∈ (check_timeout tbl now pTO hTO).1 ∧ host ∈ (check_timeout tbl now pTO hTO).2.2) ∧
    ¬(host ∈ (check_timeout tbl now pTO hTO).2.1 ∧ host ∈ (check_timeout tbl now pTO hTO).2.2) := by
  obtain ⟨m1, m2, m3⟩ := check_timeout_mem tbl now pTO hTO host
  refine ⟨m1, m2, m3, ?_, ?_, ?_, ?_⟩
  · intro hp hr
    exact ⟨fun hm => hp (m1.mp hm).2.1, fun hm => hr (m2.mp hm).2.1,
      fun hm => hr (m3.mp hm).2.1⟩
  · rintro ⟨a, b⟩
    have ha := (m1.mp a).2.1
    have hb := (m2.mp b).2.1
    rw [ha] at hb
    exact HpcState.noConfusion hb
  · rintro ⟨a, b⟩
    have ha := (m1.mp a).2.1
    have hb := (m3.mp b).2.1
    rw [ha] at hb
    exact HpcState.noConfusion hb
  · rintro ⟨a, b⟩
    exact (not_lt.mpr (m2.mp a).2.2) (m3.mp b).2.2

/-- Witness for C6: a concrete `Provisioning` record that has aged past the
provisioning timeout lands in the first list, and a concrete `Closed`
record appears in none of the lists. -/
theorem check_timeout_classifies_witness :
    (⟨"A", "A", "a", "t", 1, 0, HpcState.Provisioning⟩ : SlaveInfo) ∈
      (check_timeout [("A", ⟨"A", "A", "a", "t", 1, 0, HpcState.Provisioning⟩)] 100 50 10).1 ∧
    (⟨"B", "B", "a", "t", 1, 0, HpcState.Closed⟩ : SlaveInfo) ∉
      (check_timeout [("B", ⟨"B", "B", "a", "t", 1, 0, HpcState.Closed⟩)] 100 50 10).1 :=
  ⟨(check_timeout_classifies [("A", ⟨"A", "A", "a", "t", 1, 0, HpcState.Provisioning⟩)]
      100 50 10 ⟨"A", "A", "a", "t", 1, 0, HpcState.Provisioning⟩).1.mpr (by decide),
   ((check_timeout_classifies [("B", ⟨"B", "B", "a", "t", 1, 0, HpcState.Closed⟩)]
      100 50 10 ⟨"B", "B", "a", "t", 1, 0, HpcState.Closed⟩).2.2.2.1
      (by decide) (by decide)).1⟩

/-- IdleCheckTable models `self._node_idle_check_table`, a Python dict from
upper-cased hostname to the instant of the first idleness observation. -/
abbrev IdleCheckTable := List (String × Int)

/-- setDiscard models Python `set.discard(x)` on the removed-nodes set:
every occurrence of `x` is removed. -/
def setDiscard (s : List String) (x : String) : List String :=
  s.filter (fun y => decide (y ≠ x))

/-- idleLoop models the loop of `_check_node_idle_timeout` over the
upper-cased node names: a name tracked in the old table and present in the
removed set is re-inserted with the current instant and discarded from the
removed set; a tracked name not in the removed set keeps its old timestamp;
an untracked name is inserted with the current instant.  It returns the
freshly built table and the updated removed set. -/
def idleLoop : List String → IdleCheckTable → List String → IdleCheckTable → Int →
    IdleCheckTable × List String
  | [], _, removed, acc, _ => (acc, removed)
  | n :: rest, oldTbl, removed, acc, now =>
      match lookupTbl oldTbl n with
      | some v =>
          if n ∈ removed then
            idleLoop rest oldTbl (setDiscard removed n) (tableInsert acc n now) now
          else
            idleLoop rest oldTbl removed (tableInsert acc n v) now
      | none => idleLoop rest oldTbl removed (tableInsert acc n now) now

/-- check_node_idle_timeout models `HpcClusterManager._check_node_idle_timeout`:
rebuild the idle-observation table from the upper-cased input names, replace
the old table, and return (new table, new removed set, the names whose
observation age strictly exceeds the idle timeout).  All `datetime.now()`
calls of the invocation are modelled as the single instant `now`. -/
def check_node_idle_timeout (idleTbl : IdleCheckTable) (removed : List String)
    (node_names : List String) (now idle_timeout : Int) :
    IdleCheckTable × List String × List String :=
  let r := idleLoop (upperStrings node_names) idleTbl removed [] now
  (r.1, r.2, (r.1.filter (fun p => decide (idle_timeout < now - p.2))).map Prod.fst)

theorem mem_setDiscard (s : List String) (x y : String) :
    y ∈ setDiscard s x ↔ y ∈ s ∧ y ≠ x := by
  simp [setDiscard]

theorem idleLoop_lookup_not_mem (ns : List String) (oldTbl : IdleCheckTable)
    (removed : List String) (acc : IdleCheckTable) (now : Int)
    (n : String) (hn : n ∉ ns) :
    lookupTbl (idleLoop ns oldTbl removed acc now).1 n = lookupTbl acc n := by
  induction ns generalizing removed acc with
  | nil => simp [idleLoop]
  | cons m rest ih =>
      have hm : n ≠ m := fun h => hn (h ▸ List.mem_cons_self m rest)
      have hr : n ∉ rest := fun h => hn (List.mem_cons_of_mem m h)
      cases hv : lookupTbl oldTbl m with
      | some v =>
          by_cases hrm : m ∈ removed <;>
            simp [idleLoop, hv, hrm, ih _ _ hr, lookupTbl_tableInsert_ne _ _ _ _ hm]
      | none => simp [idleLoop, hv, ih _ _ hr, lookupTbl_tableInsert_ne _ _ _ _ hm]

theorem idleLoop_lookup_mem (ns : List String) (oldTbl : IdleCheckTable)
    (removed : List String) (acc : IdleCheckTable) (now : Int)
    (hnd : ns.Nodup) (n : String) (hn : n ∈ ns) :
    lookupTbl (idleLoop ns oldTbl removed acc now).1 n =
      match lookupTbl oldTbl n with
      | some v => if n ∈ removed then some now else some v
      | none => some now := by
  induction ns generalizing removed acc with
  | nil => cases hn
  | cons m rest ih =>
      have hnd2 : rest.Nodup := (List.nodup_cons.mp hnd).2
      by_cases hnm : n = m
      · subst hnm
        have hrest : n ∉ rest := (List.nodup_cons.mp hnd).1
        cases hv : lookupTbl oldTbl n with
        | some v =>
            by_cases hr : n ∈ removed <;>
              simp [idleLoop, hv, hr, idleLoop_lookup_not_mem _ _ _ _ _ _ hrest,
                lookupTbl_tableInsert_self]
        | none =>
            simp [idleLoop, hv, idleLoop_lookup_not_mem _ _ _ _ _ _ hrest,
              lookupTbl_tableInsert_self]
      · have hnrest : n ∈ rest := by
          cases List.mem_cons.mp hn with
          | inl h => exact absurd h hnm
          | inr h => exact h
        cases hv : lookupTbl oldTbl m with
        | some v =>
            by_cases hrm : m ∈ removed
            · rw [show idleLoop (m :: rest) oldTbl removed acc now =
                    idleLoop rest oldTbl (setDiscard removed m) (tableInsert acc m now) now by
                  simp [idleLoop, hv, hrm]]
              rw [ih _ _ hnd2 hnrest]
              cases hvn : lookupTbl oldTbl n with
              | none => rfl
              | some w =>
                  by_cases hrn : n ∈ removed
                  · simp [hrn, (mem_setDiscard removed m n).mpr ⟨hrn, hnm⟩]
                  · have hnot : n ∉ setDiscard removed m :=
                      fun hc => hrn ((mem_setDiscard _ _ _).mp hc).1
                    simp [hrn, hnot]
            · rw [show idleLoop (m :: rest) oldTbl removed acc now =
                    idleLoop rest oldTbl removed (tableInsert acc m v) now by
                  simp [idleLoop, hv, hrm]]
              exact ih _ _ hnd2 hnrest
        | none =>
            rw [show idleLoop (m :: rest) oldTbl removed acc now =
                  idleLoop rest oldTbl removed (tableInsert acc m now) now by
                simp [idleLoop, hv]]
            exact ih _ _ hnd2 hnrest

theorem idleLoop_removed_subset (ns : List String) (oldTbl : IdleCheckTable)
    (removed : List String) (acc : IdleCheckTable) (now : Int)
    (x : String) (hx : x ∈ (idleLoop ns oldTbl removed acc now).2) : x ∈ removed := by
  induction ns generalizing removed acc with
  | nil => simpa [idleLoop] using hx
  | cons m rest ih =>
      cases hv : lookupTbl oldTbl m with
      | some v =>
          by_cases hrm : m ∈ removed
          · rw [show idleLoop (m :: rest) oldTbl removed acc now =
                  idleLoop rest oldTbl (setDiscard removed m) (tableInsert acc m now) now by
                simp [idleLoop, hv, hrm]] at hx
            exact ((mem_setDiscard _ _ _).mp (ih _ _ hx)).1
          · rw [show idleLoop (m :: rest) oldTbl removed acc now =
                  idleLoop rest oldTbl removed (tableInsert acc m v) now by
                simp [idleLoop, hv, hrm]] at hx
            exact ih _ _ hx
      | none =>
          rw [show idleLoop (m :: rest) oldTbl removed acc now =
                idleLoop rest oldTbl removed (tableInsert acc m now) now by
              simp [idleLoop, hv]] at hx
          exact ih _ _ hx

theorem idleLoop_removed_not_mem (ns : List String) (oldTbl : IdleCheckTable)
    (removed : List String) (acc : IdleCheckTable) (now : Int)
    (n : String) (hn : n ∈ ns) (htr : (lookupTbl oldTbl n).isSome) (hr : n ∈ removed) :
    n ∉ (idleLoop ns oldTbl removed acc now).2 := by
  induction ns generalizing removed acc with
  | nil => cases hn
  | cons m rest ih =>
      by_cases hnm : n = m
      · subst hnm
        obtain ⟨v, hv⟩ := Option.isSome_iff_exists.mp htr
        rw [show idleLoop (n :: rest) oldTbl removed acc now =
              idleLoop rest oldTbl (setDiscard removed n) (tableInsert acc n now) now by
            simp [idleLoop, hv, hr]]
        intro hmem
        have := idleLoop_removed_subset _ _ _ _ _ _ hmem
        exact ((mem_setDiscard _ _ _).mp this).2 rfl
      · have hnrest : n ∈ rest := by
          cases List.mem_cons.mp hn with
          | inl h => exact absurd h hnm
          | inr h => exact h
        cases hv : lookupTbl oldTbl m with
        | some v =>
            by_cases hrm : m ∈ removed
            · rw [show idleLoop (m :: rest) oldTbl removed acc now =
                    idleLoop rest oldTbl (setDiscard removed m) (tableInsert acc m now) now by
                  simp [idleLoop, hv, hrm]]
              exact ih _ _ hnrest ((mem_setDiscard _ _ _).mpr ⟨hr, hnm⟩)
            · rw [show idleLoop (m :: rest) oldTbl removed acc now =
                    idleLoop rest oldTbl removed (tableInsert acc m v) now by
                  simp [idleLoop, hv, hrm]]
              exact ih _ _ hnrest hr
        | none =>
            rw [show idleLoop (m :: rest) oldTbl removed acc now =
                  idleLoop rest oldTbl removed (tableInsert acc m now) now by
                simp [idleLoop, hv]]
            exact ih _ _ hnrest hr

theorem mem_keys_tableInsert {α : Type} (tbl : List (String × α)) (k x : String) (v : α) :
    x ∈ (tableInsert tbl k v).map Prod.fst ↔ x ∈ tbl.map Prod.fst ∨ x = k := by
  induction tbl with
  | nil => simp [tableInsert]
  | cons p rest ih =>
      obtain ⟨k1, v1⟩ := p
      by_cases h : k1 = k
      · subst h
        simp [tableInsert]
        tauto
      · simp [tableInsert, h, ih]
        tauto

theorem keys_nodup_tableInsert {α : Type} (tbl : List (String × α)) (k : String) (v : α)
    (h : (tbl.map Prod.fst).Nodup) : ((tableInsert tbl k v).map Prod.fst).Nodup := by
  induction tbl with
  | nil => simp [tableInsert]
  | cons p rest ih =>
      obtain ⟨k1, v1⟩ := p
      have h1 : k1 ∉ rest.map Prod.fst := (List.nodup_cons.mp (by simpa using h)).1
      have h2 : (rest.map Prod.fst).Nodup := (List.nodup_cons.mp (by simpa using h)).2
      by_cases hk : k1 = k
      · subst hk
        simp only [tableInsert, if_pos rfl, List.map_cons]
        exact List.nodup_cons.mpr ⟨h1, h2⟩
      · simp only [tableInsert, if_neg hk, List.map_cons]
        refine List.nodup_cons.mpr ⟨?_, ih h2⟩
        intro hc
        rcases (mem_keys_tableInsert rest k k1 v).mp hc with hm | he
        · exact h1 hm
        · exact hk he

theorem idleLoop_keys_nodup (ns : List String) (oldTbl : IdleCheckTable)
    (removed : List String) (acc : IdleCheckTable) (now : Int)
    (h : (acc.map Prod.fst).Nodup) :
    ((idleLoop ns oldTbl removed acc now).1.map Prod.fst).Nodup := by
  induction ns generalizing removed acc with
  | nil => simpa [idleLoop] using h
  | cons m rest ih =>
      cases hv : lookupTbl oldTbl m with
      | some v =>
          by_cases hrm : m ∈ removed
          · rw [show idleLoop (m :: rest) oldTbl removed acc now =
                  idleLoop rest oldTbl (setDiscard removed m) (tableInsert acc m now) now by
                simp [idleLoop, hv, hrm]]
            exact ih _ _ (keys_nodup_tableInsert _ _ _ h)
          · rw [show idleLoop (m :: rest) oldTbl removed acc now =
                  idleLoop rest oldTbl removed (tableInsert acc m v) now by
                simp [idleLoop, hv, hrm]]
            exact ih _ _ (keys_nodup_tableInsert _ _ _ h)
      | none =>
          rw [show idleLoop (m :: rest) oldTbl removed acc now =
                idleLoop rest oldTbl removed (tableInsert acc m now) now by
              simp [idleLoop, hv]]
          exact ih _ _ (keys_nodup_tableInsert _ _ _ h)

theorem lookupTbl_eq_some_iff {α : Type} (tbl : List (String × α)) (n : String) (v : α)
    (h : (tbl.map Prod.fst).Nodup) : lookupTbl tbl n = some v ↔ (n, v) ∈ tbl := by
  induction tbl with
  | nil => simp [lookupTbl]
  | cons p rest ih =>
      obtain ⟨k, w⟩ := p
      have h1 : k ∉ rest.map Prod.fst := (List.nodup_cons.mp (by simpa using h)).1
      have h2 : (rest.map Prod.fst).Nodup := (List.nodup_cons.mp (by simpa using h)).2
      by_cases hk : k = n
      · subst hk
        simp only [lookupTbl, if_pos rfl, List.mem_cons]
        constructor
        · intro h3
          injection h3 with h4
          exact Or.inl (by rw [h4])
        · rintro (h3 | h3)
          · injection h3 with h4 h5
            simp [h5]
          · exact absurd (List.mem_map_of_mem Prod.fst h3) h1
      · simp only [lookupTbl, if_neg hk, List.mem_cons]
        rw [ih h2]
        constructor
        · exact Or.inr
        · rintro (h3 | h3)
          · injection h3 with h4 h5
            exact absurd h4.symm hk
          · exact h3

/-- Counterexample to C7 as stated: with prior idle table {A ↦ 0}, removed
set {A}, input ["A", "A"] and now = 1000, the first occurrence of "A"
resets the timestamp to 1000 and discards "A" from the removed set, but
the second occurrence is looked up in the *old* table, is no longer in the
removed set, and overwrites the reset with the old timestamp 0 — so the
claimed reset to `now` fails, and "A" is (wrongly, under the claim)
reported as past the 180-second idle timeout. -/
theorem check_node_idle_timeout_counterexample :
    lookupTbl (check_node_idle_timeout [("A", 0)] ["A"] ["A", "A"] 1000 180).1 "A" = some 0 ∧
    lookupTbl (check_node_idle_timeout [("A", 0)] ["A"] ["A", "A"] 1000 180).1 "A" ≠
      some 1000 ∧
    "A" ∈ (check_node_idle_timeout [("A", 0)] ["A"] ["A", "A"] 1000 180).2.2 := by
  refine ⟨by decide, by decide, by decide⟩

/-- C7 (amended): provided the upper-cased input names are pairwise
distinct, `check_node_idle_timeout` keeps the timestamp of a tracked name
not in the removed set, resets a tracked name in the removed set to `now`
and removes it from the removed set, inserts an untracked name with
timestamp `now`, drops every name absent from the input, and returns
exactly the names whose observation age strictly exceeds the idle
timeout. -/
theorem check_node_idle_timeout_spec (idleTbl : IdleCheckTable) (removed : List String)
    (node_names : List String) (now idle_timeout : Int)
    (hnd : (upperStrings node_names).Nodup) :
    (∀ n v, n ∈ upperStrings node_names → lookupTbl idleTbl n = some v → n ∉ removed →
      lookupTbl (check_node_idle_timeout idleTbl removed node_names now idle_timeout).1 n =
        some v) ∧
    (∀ n, n ∈ upperStrings node_names → (lookupTbl idleTbl n).isSome → n ∈ removed →
      lookupTbl (check_node_idle_timeout idleTbl removed node_names now idle_timeout).1 n =
        some now ∧
      n ∉ (check_node_idle_timeout idleTbl removed node_names now idle_timeout).2.1) ∧
    (∀ n, n ∈ upperStrings node_names → lookupTbl idleTbl n = none →
      lookupTbl (check_node_idle_timeout idleTbl removed node_names now idle_timeout).1 n =
        some now) ∧
    (∀ n, n ∉ upperStrings node_names →
      lookupTbl (check_node_idle_timeout idleTbl removed node_names now idle_timeout).1 n =
        none) ∧
    (∀ n, n ∈ (check_node_idle_timeout idleTbl removed node_names now idle_timeout).2.2 ↔
      ∃ v, lookupTbl (check_node_idle_timeout idleTbl removed node_names now idle_timeout).1 n =
        some v ∧ idle_timeout < now - v) := by
  refine ⟨?_, ?_, ?_, ?_, ?_⟩
  · intro n v hn hv hr
    have h := idleLoop_lookup_mem (upperStrings node_names) idleTbl removed [] now hnd n hn
    simpa [check_node_idle_timeout, hv, hr] using h
  · intro n hn htr hr
    obtain ⟨v, hv⟩ := Option.isSome_iff_exists.mp htr
    refine ⟨?_, ?_⟩
    · have h := idleLoop_lookup_mem (upperStrings node_names) idleTbl removed [] now hnd n hn
      simpa [check_node_idle_timeout, hv, hr] using h
    · have h := idleLoop_removed_not_mem (upperStrings node_names) idleTbl removed [] now
        n hn htr hr
      simpa [check_node_idle_timeout] using h
  · intro n hn hv
    have h := idleLoop_lookup_mem (upperStrings node_names) idleTbl removed [] now hnd n hn
    simpa [check_node_idle_timeout, hv] using h
  · intro n hn
    have h := idleLoop_lookup_not_mem (upperStrings node_names) idleTbl removed [] now n hn
    simpa [check_node_idle_timeout, lookupTbl] using h
  · intro n
    have hkeys : (((idleLoop (upperStrings node_names) idleTbl removed [] now).1).map
        Prod.fst).Nodup := idleLoop_keys_nodup _ _ _ _ _ (by simp)
    constructor
    · intro hmem
      simp only [check_node_idle_timeout, List.mem_map, List.mem_filter] at hmem
      obtain ⟨⟨n2, v⟩, ⟨hin, hp⟩, rfl⟩ := hmem
      refine ⟨v, ?_, by simpa using hp⟩
      simpa [check_node_idle_timeout] using (lookupTbl_eq_some_iff _ _ _ hkeys).mpr hin
    · rintro ⟨v, hlook, hgt⟩
      simp only [check_node_idle_timeout, List.mem_map, List.mem_filter]
      refine ⟨(n, v), ⟨?_, by simpa using hgt⟩, rfl⟩
      exact (lookupTbl_eq_some_iff _ _ _ hkeys).mp
        (by simpa [check_node_idle_timeout] using hlook)

/-- Witness for C7 (amended): concrete run with idle table
{A ↦ 0, B ↦ 5, C ↦ 7}, removed {B}, input [a, b, d] at instant 1000 with
timeout 180: A keeps 0, B resets to 1000 and leaves the removed set, C is
dropped, and exactly the aged A is reported (1000 − 0 > 180). -/
theorem check_node_idle_timeout_spec_witness :
    lookupTbl (check_node_idle_timeout [("A", 0), ("B", 5), ("C", 7)] ["B"] ["a", "b", "d"]
      1000 180).1 "A" = some 0 ∧
    lookupTbl (check_node_idle_timeout [("A", 0), ("B", 5), ("C", 7)] ["B"] ["a", "b", "d"]
      1000 180).1 "B" = some 1000 ∧
    "B" ∉ (check_node_idle_timeout [("A", 0), ("B", 5), ("C", 7)] ["B"] ["a", "b", "d"]
      1000 180).2.1 ∧
    lookupTbl (check_node_idle_timeout [("A", 0), ("B", 5), ("C", 7)] ["B"] ["a", "b", "d"]
      1000 180).1 "C" = none ∧
    "A" ∈ (check_node_idle_timeout [("A", 0), ("B", 5), ("C", 7)] ["B"] ["a", "b", "d"]
      1000 180).2.2 := by
  have h := check_node_idle_timeout_spec [("A", 0), ("B", 5), ("C", 7)] ["B"] ["a", "b", "d"]
    1000 180 (by decide)
  refine ⟨h.1 "A" 0 (by decide) (by decide) (by decide),
    (h.2.1 "B" (by decide) (by decide) (by decide)).1,
    (h.2.1 "B" (by decide) (by decide) (by decide)).2,
    h.2.2.2.1 "C" (by decide),
    (h.2.2.2.2 "A").mpr ⟨0, h.1 "A" 0 (by decide) (by decide) (by decide), by decide⟩⟩

/-- NodeStatus models one record of the list returned by
`HpcRestClient.get_node_status_exact`: the fields the controller reads
through the `NODE_STATUS_*` keys (name, node state, health, groups). -/
structure NodeStatus where
  name : String
  node_state : String
  health : String
  groups : List String
deriving DecidableEq, Repr

/-- Constant of the out-of-scope REST adapter; only its identity matters
to the controller, never its spelling. -/
def NODE_STATUS_NODE_HEALTH_UNAPPROVED_VALUE : String := "Unapproved"

/-- Constant of the out-of-scope REST adapter; only its identity matters. -/
def NODE_STATUS_NODE_STATE_ONLINE_VALUE : String := "Online"

/-- Constant of the out-of-scope REST adapter; only its identity matters. -/
def NODE_STATUS_NODE_STATE_OFFLINE_VALUE : String := "Offline"

/-- MESOS_NODE_GROUP_NAME models `HpcClusterManager.MESOS_NODE_GROUP_NAME`. -/
def MESOS_NODE_GROUP_NAME : String := "Mesos"

/-- check_node_health_unapproved models
`HpcClusterManager._check_node_health_unapproved`. -/
def check_node_health_unapproved (s : NodeStatus) : Bool :=
  decide (s.health = NODE_STATUS_NODE_HEALTH_UNAPPROVED_VALUE)

/-- check_node_state models `HpcClusterManager._check_node_state`. -/
def check_node_state (s : NodeStatus) (target : String) : Bool :=
  decide (s.node_state = target)

/-- check_node_state_offline models `_check_node_state_offline`. -/
def check_node_state_offline (s : NodeStatus) : Bool :=
  check_node_state s NODE_STATUS_NODE_STATE_OFFLINE_VALUE

/-- check_node_state_online models `_check_node_state_online`. -/
def check_node_state_online (s : NodeStatus) : Bool :=
  check_node_state s NODE_STATUS_NODE_STATE_ONLINE_VALUE

/-- check_node_in_mesos_group models `_check_node_in_mesos_group`.  Mind the
source's inverted sense, which the surrounding code relies on: it returns
true when the upper-cased Mesos group name is NOT among the node's
upper-cased groups. -/
def check_node_in_mesos_group (s : NodeStatus) : Bool :=
  decide (pyUpper MESOS_NODE_GROUP_NAME ∉ upperStrings s.groups)

/-- check_node_in_specified_group models `_check_node_in_specified_group`
(inverted sense, like the Mesos variant). -/
def check_node_in_specified_group (node_group : String) (s : NodeStatus) : Bool :=
  decide (pyUpper node_group ∉ upperStrings s.groups)

/-- node_group_specified models `HpcClusterManager._node_group_specified`. -/
def node_group_specified (node_group : String) : Bool := decide (node_group ≠ "")

/-- ConfigureBuckets models the five name lists and the invalid-state dict
(modelled as insertion-ordered pairs) that the classification loop of
`_configure_compute_nodes_state_machine` builds. -/
structure ConfigureBuckets where
  unapproved_node_list : List String
  take_offline_node_list : List String
  bring_online_node_list : List String
  change_node_group_node_list : List String
  configured_node_names : List String
  invalid_state_node_dict : List (String × String)
deriving DecidableEq, Repr

/-- ConfigureBucket labels the outcome of the if/elif chain of
`_configure_compute_nodes_state_machine` for one node status. -/
inductive ConfigureBucket where
  | unapproved
  | takeOffline
  | changeGroup
  | bringOnline
  | configured
  | invalid
deriving DecidableEq, Repr

/-- configureClassify spells out the if/elif chain of
`_configure_compute_nodes_state_machine` for a single node status:
unapproved health first; then, for a node missing from the required
group(s), online means take-offline and offline means change-group;
otherwise offline means bring-online and online means configured;
everything else is invalid-state. -/
def configureClassify (node_group : String) (s : NodeStatus) : ConfigureBucket :=
  if check_node_health_unapproved s then ConfigureBucket.unapproved
  else if check_node_in_mesos_group s ||
      (node_group_specified node_group && check_node_in_specified_group node_group s) then
    if check_node_state_online s then ConfigureBucket.takeOffline
    else if check_node_state_offline s then ConfigureBucket.changeGroup
    else ConfigureBucket.invalid
  else if check_node_state_offline s then ConfigureBucket.bringOnline
  else if check_node_state_online s then ConfigureBucket.configured
  else ConfigureBucket.invalid

/-- configureScan models the classification loop of
`_configure_compute_nodes_state_machine` over the status list returned by
the head node, preserving iteration order in each bucket. -/
def configureScan (node_group : String) : List NodeStatus → ConfigureBuckets
  | [] => ⟨[], [], [], [], [], []⟩
  | s :: rest =>
      let b := configureScan node_group rest
      if check_node_health_unapproved s then
        { b with unapproved_node_list := s.name :: b.unapproved_node_list }
      else if check_node_in_mesos_group s ||
          (node_group_specified node_group && check_node_in_specified_group node_group s) then
        if check_node_state_online s then
          { b with take_offline_node_list := s.name :: b.take_offline_node_list }
        else if check_node_state_offline s then
          { b with change_node_group_node_list := s.name :: b.change_node_group_node_list }
        else
          { b with invalid_state_node_dict :=
              (s.name, s.node_state) :: b.invalid_state_node_dict }
      else if check_node_state_offline s then
        { b with bring_online_node_list := s.name :: b.bring_online_node_list }
      else if check_node_state_online s then
        { b with configured_node_names := s.name :: b.configured_node_names }
      else
        { b with invalid_state_node_dict :=
            (s.name, s.node_state) :: b.invalid_state_node_dict }

theorem configureScan_cons (node_group : String) (s : NodeStatus) (rest : List NodeStatus) :
    configureScan node_group (s :: rest) =
      (match configureClassify node_group s with
       | ConfigureBucket.unapproved =>
           { configureScan node_group rest with unapproved_node_list :=
               s.name :: (configureScan node_group rest).unapproved_node_list }
       | ConfigureBucket.takeOffline =>
           { configureScan node_group rest with take_offline_node_list :=
               s.name :: (configureScan node_group rest).take_offline_node_list }
       | ConfigureBucket.changeGroup =>
           { configureScan node_group rest with change_node_group_node_list :=
               s.name :: (configureScan node_group rest).change_node_group_node_list }
       | ConfigureBucket.bringOnline =>
           { configureScan node_group rest with bring_online_node_list :=
               s.name :: (configureScan node_group rest).bring_online_node_list }
       | ConfigureBucket.configured =>
           { configureScan node_group rest with configured_node_names :=
               s.name :: (configureScan node_group rest).configured_node_names }
       | ConfigureBucket.invalid =>
           { configureScan node_group rest with invalid_state_node_dict :=
               (s.name, s.node_state) :: (configureScan node_group rest).invalid_state_node_dict }) := by
  cases h1 : check_node_health_unapproved s <;>
    cases h2 : (check_node_in_mesos_group s ||
      (node_group_specified node_group && check_node_in_specified_group node_group s)) <;>
      cases h3 : check_node_state_online s <;>
        cases h4 : check_node_state_offline s <;>
          simp [configureScan, configureClassify, h1, h2, h3, h4]

theorem configureScan_eq_filter (node_group : String) (l : List NodeStatus) :
    (configureScan node_group l).unapproved_node_list =
      (l.filter (fun s =>
        decide (configureClassify node_group s = ConfigureBucket.unapproved))).map
        NodeStatus.name ∧
    (configureScan node_group l).take_offline_node_list =
      (l.filter (fun s =>
        decide (configureClassify node_group s = ConfigureBucket.takeOffline))).map
        NodeStatus.name ∧
    (configureScan node_group l).change_node_group_node_list =
      (l.filter (fun s =>
        decide (configureClassify node_group s = ConfigureBucket.changeGroup))).map
        NodeStatus.name ∧
    (configureScan node_group l).bring_online_node_list =
      (l.filter (fun s =>
        decide (configureClassify node_group s = ConfigureBucket.bringOnline))).map
        NodeStatus.name ∧
    (configureScan node_group l).configured_node_names =
      (l.filter (fun s =>
        decide (configureClassify node_group s = ConfigureBucket.configured))).map
        NodeStatus.name ∧
    (configureScan node_group l).invalid_state_node_dict =
      (l.filter (fun s =>
        decide (configureClassify node_group s = ConfigureBucket.invalid))).map
        (fun s => (s.name, s.node_state)) := by
  induction l with
  | nil => simp [configureScan]
  | cons s rest ih =>
      obtain ⟨i1, i2, i3, i4, i5, i6⟩ := ih
      rw [configureScan_cons]
      cases hc : configureClassify node_group s <;>
        simp [hc, List.filter_cons, i1, i2, i3, i4, i5, i6]

/-- C8: each node status returned during the configure step is placed in at
most one bucket — every bucket list of the classification loop is exactly
the statuses whose `configureClassify` value (the source's if/elif chain:
unapproved health first; else not-in-required-group(s) with online →
take-offline, with offline → change-group; else offline → bring-online,
online → configured; anything else invalid-state) names that bucket, and
`configureClassify` is a function, so a status feeds exactly one bucket.
Group membership is case-insensitive: statuses whose group lists agree
after upper-casing classify identically. -/
theorem configure_buckets_spec (node_group : String) (l : List NodeStatus) (s : NodeStatus) :
    ((configureScan node_group l).unapproved_node_list =
      (l.filter (fun t =>
        decide (configureClassify node_group t = ConfigureBucket.unapproved))).map
        NodeStatus.name ∧
    (configureScan node_group l).take_offline_node_list =
      (l.filter (fun t =>
        decide (configureClassify node_group t = ConfigureBucket.takeOffline))).map
        NodeStatus.name ∧
    (configureScan node_group l).change_node_group_node_list =
      (l.filter (fun t =>
        decide (configureClassify node_group t = ConfigureBucket.changeGroup))).map
        NodeStatus.name ∧
    (configureScan node_group l).bring_online_node_list =
      (l.filter (fun t =>
        decide (configureClassify node_group t = ConfigureBucket.bringOnline))).map
        NodeStatus.name ∧
    (configureScan node_group l).configured_node_names =
      (l.filter (fun t =>
        decide (configureClassify node_group t = ConfigureBucket.configured))).map
        NodeStatus.name ∧
    (configureScan node_group l).invalid_state_node_dict =
      (l.filter (fun t =>
        decide (configureClassify node_group t = ConfigureBucket.invalid))).map
        (fun t => (t.name, t.node_state))) ∧
    (∀ gs, upperStrings gs = upperStrings s.groups →
      configureClassify node_group ⟨s.name, s.node_state, s.health, gs⟩ =
        configureClassify node_group s) := by
  refine ⟨configureScan_eq_filter node_group l, ?_⟩
  intro gs hgs
  simp [configureClassify, check_node_health_unapproved, check_node_in_mesos_group,
    check_node_in_specified_group, check_node_state_online, check_node_state_offline,
    check_node_state, hgs]

/-- Witness for C8: classification is unchanged when the group list's case
changes, and a concrete approved, online, Mesos-grouped node is emitted in
the configured bucket. -/
theorem configure_buckets_spec_witness :
    configureClassify "grp" ⟨"N1", "Online", "OK", ["mesos"]⟩ =
      configureClassify "grp" ⟨"N1", "Online", "OK", ["MESOS"]⟩ ∧
    (configureScan "" [⟨"N1", "Online", "OK", ["MESOS"]⟩]).configured_node_names = ["N1"] := by
  constructor
  · exact (configure_buckets_spec "grp" [] ⟨"N1", "Online", "OK", ["MESOS"]⟩).2
      ["mesos"] (by decide)
  · have h2 := (configure_buckets_spec "" [⟨"N1", "Online", "OK", ["MESOS"]⟩]
      ⟨"N1", "Online", "OK", ["MESOS"]⟩).1.2.2.2.2.1
    rw [h2]
    decide

/-- closeScan models the classification loop of `_close_node_state_machine`
over the returned status list: unapproved health → already removed
(closed); otherwise not offline → not properly drained (re-drain);
otherwise → to-remove.  Returns `(closed, re_drain, to_remove)` in
iteration order. -/
def closeScan : List NodeStatus → List String × List String × List String
  | [] => ([], [], [])
  | s :: rest =>
      let r := closeScan rest
      if check_node_health_unapproved s then (s.name :: r.1, r.2.1, r.2.2)
      else if !check_node_state_offline s then (r.1, s.name :: r.2.1, r.2.2)
      else (r.1, r.2.1, s.name :: r.2.2)

/-- close_node_state_machine models `HpcClusterManager._close_node_state_machine`:
classify the returned statuses with `closeScan`, fold every input name that
is in neither `re_drain` nor `to_remove` into `closed` (treated as already
removed), issue `remove_nodes(to_remove)` — whose exception the bare
`except` swallows, so the flag saying whether it raises cannot influence
the result — and return `(closed, re_drain)`. -/
def close_node_state_machine (node_names : List String) (status_list : List NodeStatus)
    (remove_nodes_raises : Bool) : List String × List String :=
  let r := closeScan status_list
  let closed_node := r.1 ++ node_names.filter (fun n => decide (n ∉ r.2.1 ++ r.2.2))
  let call_result : Except Unit Unit :=
    if remove_nodes_raises ∧ r.2.2 ≠ [] then Except.error () else Except.ok ()
  let _swallowed := call_result
  (closed_node, r.2.1)

theorem mem_closeScan_closed (l : List NodeStatus) (n : String)
    (h : n ∈ (closeScan l).1) :
    ∃ s, s ∈ l ∧ s.name = n ∧ check_node_health_unapproved s = true := by
  induction l with
  | nil => simp [closeScan] at h
  | cons s rest ih =>
      cases h1 : check_node_health_unapproved s
      · cases h2 : check_node_state_offline s
        · rw [show closeScan (s :: rest) =
                ((closeScan rest).1, s.name :: (closeScan rest).2.1, (closeScan rest).2.2) by
              simp [closeScan, h1, h2]] at h
          obtain ⟨t, ht, hn, hu⟩ := ih h
          exact ⟨t, List.mem_cons_of_mem s ht, hn, hu⟩
        · rw [show closeScan (s :: rest) =
                ((closeScan rest).1, (closeScan rest).2.1, s.name :: (closeScan rest).2.2) by
              simp [closeScan, h1, h2]] at h
          obtain ⟨t, ht, hn, hu⟩ := ih h
          exact ⟨t, List.mem_cons_of_mem s ht, hn, hu⟩
      · rw [show closeScan (s :: rest) =
              (s.name :: (closeScan rest).1, (closeScan rest).2.1, (closeScan rest).2.2) by
            simp [closeScan, h1]] at h
        rcases List.mem_cons.mp h with hn | hmem
        · exact ⟨s, List.mem_cons_self s rest, hn.symm, h1⟩
        · obtain ⟨t, ht, hn, hu⟩ := ih hmem
          exact ⟨t, List.mem_cons_of_mem s ht, hn, hu⟩

theorem mem_closeScan_re_drain (l : List NodeStatus) (n : String)
    (h : n ∈ (closeScan l).2.1) :
    ∃ s, s ∈ l ∧ s.name = n ∧ check_node_health_unapproved s = false ∧
      check_node_state_offline s = false := by
  induction l with
  | nil => simp [closeScan] at h
  | cons s rest ih =>
      cases h1 : check_node_health_unapproved s
      · cases h2 : check_node_state_offline s
        · rw [show closeScan (s :: rest) =
                ((closeScan rest).1, s.name :: (closeScan rest).2.1, (closeScan rest).2.2) by
              simp [closeScan, h1, h2]] at h
          rcases List.mem_cons.mp h with hn | hmem
          · exact ⟨s, List.mem_cons_self s rest, hn.symm, h1, h2⟩
          · obtain ⟨t, ht, hn, hu, ho⟩ := ih hmem
            exact ⟨t, List.mem_cons_of_mem s ht, hn, hu, ho⟩
        · rw [show closeScan (s :: rest) =
                ((closeScan rest).1, (closeScan rest).2.1, s.name :: (closeScan rest).2.2) by
              simp [closeScan, h1, h2]] at h
          obtain ⟨t, ht, hn, hu, ho⟩ := ih h
          exact ⟨t, List.mem_cons_of_mem s ht, hn, hu, ho⟩
      · rw [show closeScan (s :: rest) =
              (s.name :: (closeScan rest).1, (closeScan rest).2.1, (closeScan rest).2.2) by
            simp [closeScan, h1]] at h
        obtain ⟨t, ht, hn, hu, ho⟩ := ih h
        exact ⟨t, List.mem_cons_of_mem s ht, hn, hu, ho⟩

theorem mem_closeScan_to_remove (l : List NodeStatus) (n : String)
    (h : n ∈ (closeScan l).2.2) :
    ∃ s, s ∈ l ∧ s.name = n ∧ check_node_health_unapproved s = false ∧
      check_node_state_offline s = true := by
  induction l with
  | nil => simp [closeScan] at h
  | cons s rest ih =>
      cases h1 : check_node_health_unapproved s
      · cases h2 : check_node_state_offline s
        · rw [show closeScan (s :: rest) =
                ((closeScan rest).1, s.name :: (closeScan rest).2.1, (closeScan rest).2.2) by
              simp [closeScan, h1, h2]] at h
          obtain ⟨t, ht, hn, hu, ho⟩ := ih h
          exact ⟨t, List.mem_cons_of_mem s ht, hn, hu, ho⟩
        · rw [show closeScan (s :: rest) =
                ((closeScan rest).1, (closeScan rest).2.1, s.name :: (closeScan rest).2.2) by
              simp [closeScan, h1, h2]] at h
          rcases List.mem_cons.mp h with hn | hmem
          · exact ⟨s, List.mem_cons_self s rest, hn.symm, h1, h2⟩
          · obtain ⟨t, ht, hn, hu, ho⟩ := ih hmem
            exact ⟨t, List.mem_cons_of_mem s ht, hn, hu, ho⟩
      · rw [show closeScan (s :: rest) =
              (s.name :: (closeScan rest).1, (closeScan rest).2.1, (closeScan rest).2.2) by
            simp [closeScan, h1]] at h
        obtain ⟨t, ht, hn, hu, ho⟩ := ih h
        exact ⟨t, List.mem_cons_of_mem s ht, hn, hu, ho⟩

/-- Counterexample to C9 as stated: input ["A"] whose status is approved
and offline is classified for removal (`to_remove = ["A"]`), yet the
closed output is empty — whether or not `remove_nodes` raises — because
the source never folds `to_remove` into `closed`. -/
theorem close_step_counterexample :
    closeScan [⟨"A", "Offline", "OK", []⟩] = ([], [], ["A"]) ∧
    (close_node_state_machine ["A"] [⟨"A", "Offline", "OK", []⟩] true).1 = [] ∧
    (close_node_state_machine ["A"] [⟨"A", "Offline", "OK", []⟩] false).1 = [] := by
  refine ⟨by decide, by decide, by decide⟩

/-- C9 (amended): every input name that does not appear in the returned
status list is folded into `closed`; names classified for removal
(offline and approved) are handed to `remove_nodes`, whose exception is
swallowed so the outputs never depend on it, but — when the status names
are pairwise distinct — they are NOT reported in this tick's closed
output; the next tick re-verifies them via status. -/
theorem close_step_spec (node_names : List String) (status_list : List NodeStatus)
    (b1 b2 : Bool) :
    (∀ n, n ∈ node_names → n ∉ status_list.map NodeStatus.name →
      n ∈ (close_node_state_machine node_names status_list b1).1) ∧
    ((status_list.map NodeStatus.name).Nodup →
      ∀ n, n ∈ (closeScan status_list).2.2 →
        n ∉ (close_node_state_machine node_names status_list b1).1) ∧
    close_node_state_machine node_names status_list b1 =
      close_node_state_machine node_names status_list b2 := by
  refine ⟨?_, ?_, rfl⟩
  · intro n hn hns
    have h1 : n ∉ (closeScan status_list).2.1 := fun hc => by
      obtain ⟨s, hs, hsn, _, _⟩ := mem_closeScan_re_drain status_list n hc
      exact hns (hsn ▸ List.mem_map_of_mem NodeStatus.name hs)
    have h2 : n ∉ (closeScan status_list).2.2 := fun hc => by
      obtain ⟨s, hs, hsn, _, _⟩ := mem_closeScan_to_remove status_list n hc
      exact hns (hsn ▸ List.mem_map_of_mem NodeStatus.name hs)
    simp only [close_node_state_machine]
    refine List.mem_append.mpr (Or.inr (List.mem_filter.mpr ⟨hn, ?_⟩))
    simp [h1, h2]
  · intro hnd n hto hc
    simp only [close_node_state_machine] at hc
    rcases List.mem_append.mp hc with hcl | hfl
    · obtain ⟨s, hs, hsn, hu⟩ := mem_closeScan_closed status_list n hcl
      obtain ⟨t, ht, htn, htu, hto2⟩ := mem_closeScan_to_remove status_list n hto
      have hst : s = t := List.inj_on_of_nodup_map hnd hs ht (by rw [hsn, htn])
      rw [hst, htu] at hu
      simp at hu
    · have h2 := (List.mem_filter.mp hfl).2
      simp [List.mem_append] at h2
      exact h2.2 hto

/-- Witness for C9 (amended): with input ["A", "B"] and a status list
reporting only B (approved, offline), A is folded into closed, B is
classified for removal and is not in closed, and a raising and a
non-raising `remove_nodes` call give identical outputs. -/
theorem close_step_spec_witness :
    "A" ∈ (close_node_state_machine ["A", "B"] [⟨"B", "Offline", "OK", []⟩] true).1 ∧
    "B" ∉ (close_node_state_machine ["A", "B"] [⟨"B", "Offline", "OK", []⟩] true).1 ∧
    close_node_state_machine ["A", "B"] [⟨"B", "Offline", "OK", []⟩] true =
      close_node_state_machine ["A", "B"] [⟨"B", "Offline", "OK", []⟩] false := by
  have h := close_step_spec ["A", "B"] [⟨"B", "Offline", "OK", []⟩] true false
  exact ⟨h.1 "A" (by decide) (by decide), h.2.1 (by decide) "B" (by decide), h.2.2⟩

/-- Counterexample to C10 as stated: with distinct input names ["A", "B"]
and a status list holding A unapproved, B unapproved and B online, the
closed output is ["A", "B", "A"] — "A" appears twice (once from the
unapproved scan, once from the already-removed fold) — and "B" appears in
both closed and re_drain. -/
theorem close_step_dup_counterexample :
    (["A", "B"] : List String).Nodup ∧
    close_node_state_machine ["A", "B"]
      [⟨"A", "Online", "Unapproved", []⟩, ⟨"B", "Online", "Unapproved", []⟩,
        ⟨"B", "Online", "OK", []⟩] false = (["A", "B", "A"], ["B"]) ∧
    (close_node_state_machine ["A", "B"]
      [⟨"A", "Online", "Unapproved", []⟩, ⟨"B", "Online", "Unapproved", []⟩,
        ⟨"B", "Online", "OK", []⟩] false).1.count "A" = 2 ∧
    "B" ∈ (close_node_state_machine ["A", "B"]
      [⟨"A", "Online", "Unapproved", []⟩, ⟨"B", "Online", "Unapproved", []⟩,
        ⟨"B", "Online", "OK", []⟩] false).1 ∧
    "B" ∈ (close_node_state_machine ["A", "B"]
      [⟨"A", "Online", "Unapproved", []⟩, ⟨"B", "Online", "Unapproved", []⟩,
        ⟨"B", "Online", "OK", []⟩] false).2 := by
  refine ⟨by decide, by decide, by decide, by decide, by decide⟩

/-- C10 (amended): when the returned status entries carry pairwise-distinct
names, no name appears in both the closed and the re_drain output of
`_close_node_state_machine`; the at-most-once half of the original claim
fails, because an unapproved input name enters closed twice. -/
theorem close_step_closed_re_drain_disjoint (node_names : List String)
    (status_list : List NodeStatus) (b : Bool)
    (hnd : (status_list.map NodeStatus.name).Nodup) (n : String)
    (hc : n ∈ (close_node_state_machine node_names status_list b).1) :
    n ∉ (close_node_state_machine node_names status_list b).2 := by
  intro hr
  simp only [close_node_state_machine] at hc hr
  rcases List.mem_append.mp hc with hcl | hfl
  · obtain ⟨s, hs, hsn, hu⟩ := mem_closeScan_closed status_list n hcl
    obtain ⟨t, ht, htn, htu, hto⟩ := mem_closeScan_re_drain status_list n hr
    have hst : s = t := List.inj_on_of_nodup_map hnd hs ht (by rw [hsn, htn])
    rw [hst, htu] at hu
    simp at hu
  · have h2 := (List.mem_filter.mp hfl).2
    simp [List.mem_append] at h2
    exact h2.1 hr

/-- Witness for C10 (amended): with input ["A", "B"] and a single status
reporting B online and approved, "A" is in closed and therefore not in
re_drain (which is ["B"]). -/
theorem close_step_closed_re_drain_disjoint_witness :
    "A" ∉ (close_node_state_machine ["A", "B"] [⟨"B", "Online", "OK", []⟩] false).2 :=
  close_step_closed_re_drain_disjoint ["A", "B"] [⟨"B", "Online", "OK", []⟩] false
    (by decide) "A" (by decide)

/-- ClusterState bundles the mutable state of `HpcClusterManager` touched
by the drain/close phase: the heartbeat table and `self._removed_nodes`. -/
structure ClusterState where
  table : HeartBeatTable
  removed : List String
deriving DecidableEq, Repr

/-- setUnion models Python `set.update`: add each element not yet present. -/
def setUnion (s : List String) (xs : List String) : List String :=
  xs.foldl (fun acc x => if x ∈ acc then acc else acc ++ [x]) s

/-- set_node_state models `HpcClusterManager._set_node_state`: upper-case
each name; a known record whose state differs is replaced with the new
state and collected in `setted_nodes` (in order); unknown names and
records already in the target state are skipped. -/
def set_node_state : HeartBeatTable → List String → HpcState → HeartBeatTable × List String
  | tbl, [], _ => (tbl, [])
  | tbl, n :: rest, st =>
      let u := pyUpper n
      match lookupTbl tbl u with
      | some info =>
          if info.state ≠ st then
            let r := set_node_state (tableInsert tbl u { info with state := st }) rest st
            (r.1, u :: r.2)
          else
            set_node_state tbl rest st
      | none => set_node_state tbl rest st

/-- set_nodes_draining models `_set_nodes_draining`: update the removed set
with the upper-cased names and set the states to `Draining`. -/
def set_nodes_draining (cs : ClusterState) (node_names : List String) : ClusterState :=
  let r := set_node_state cs.table node_names HpcState.Draining
  { table := r.1, removed := setUnion cs.removed (upperStrings node_names) }

/-- set_nodes_closing models `_set_nodes_closing`. -/
def set_nodes_closing (cs : ClusterState) (node_names : List String) : ClusterState :=
  let r := set_node_state cs.table node_names HpcState.Closing
  { table := r.1, removed := setUnion cs.removed (upperStrings node_names) }

/-- set_nodes_closed models the state-mutating part of `_set_nodes_closed`;
the second component is the `closed_nodes` list handed to the registered
callbacks (their dispatch loop is `dispatch_node_closed_callbacks`). -/
def set_nodes_closed (cs : ClusterState) (node_names : List String) :
    ClusterState × List String :=
  let r := set_node_state cs.table node_names HpcState.Closed
  (⟨r.1, setUnion cs.removed (upperStrings node_names)⟩, r.2)

/-- drainScan models the classification loop of `_drain_nodes_state_machine`:
online → take-offline list; offline → drained; anything else →
invalid-state.  Returns `(take_offline, drained, invalid)`. -/
def drainScan : List NodeStatus → List String × List String × List (String × String)
  | [] => ([], [], [])
  | s :: rest =>
      let r := drainScan rest
      if check_node_state_online s then (s.name :: r.1, r.2.1, r.2.2)
      else if check_node_state_offline s then (r.1, s.name :: r.2.1, r.2.2)
      else (r.1, r.2.1, (s.name, s.node_state) :: r.2.2)

/-- drain_nodes_state_machine models `_drain_nodes_state_machine`: the
drained names are those observed offline; the take-offline call's
exception is swallowed and cannot affect the result. -/
def drain_nodes_state_machine (status_list : List NodeStatus) : List String :=
  (drainScan status_list).2.1

/-- collectDrainClose models the first loop of `_drain_and_stop_nodes`:
collect hostnames of `Draining` and of `Closing` records in table order. -/
def collectDrainClose : HeartBeatTable → List String × List String
  | [] => ([], [])
  | (_, host) :: rest =>
      let r := collectDrainClose rest
      if host.state = HpcState.Draining then (host.hostname :: r.1, r.2)
      else if host.state = HpcState.Closing then (r.1, host.hostname :: r.2)
      else r

/-- drain_and_stop_nodes models `HpcClusterManager._drain_and_stop_nodes`
against a head node answering `get_node_status_exact` with `statusOf`
(side-effecting REST calls raise nothing here): drain the `Draining` set,
short-cut freshly drained nodes into the close batch, close the batch with
`_close_node_state_machine`, set the closed names `Closed`, and —
reproducing the source's line 325 verbatim — pass `closed_node_names`
(not `re_drain_node_names`) to `_set_nodes_draining` whenever the re-drain
list is non-empty. -/
def drain_and_stop_nodes (cs : ClusterState)
    (statusOf : List String → List NodeStatus) : ClusterState :=
  let dc := collectDrainClose cs.table
  let step1 :=
    if dc.1 ≠ [] then
      let drained := drain_nodes_state_machine (statusOf dc.1)
      if drained ≠ [] then (set_nodes_closing cs drained, dc.2 ++ drained)
      else (cs, dc.2)
    else (cs, dc.2)
  let cs1 := step1.1
  let to_close := step1.2
  if to_close ≠ [] then
    let cr := close_node_state_machine to_close (statusOf to_close) false
    let cs2 := if cr.1 ≠ [] then (set_nodes_closed cs1 cr.1).1 else cs1
    if cr.2 ≠ [] then set_nodes_draining cs2 cr.1 else cs2
  else cs1

/-- C1: the code contradicts this claim.  Line 325 of `heartbeat_table.py`
passes `closed_node_names` instead of `re_drain_node_names` to
`_set_nodes_draining`, so a node returned in `re_drain` is never set back
to `Draining`.  Here H5 is `Closing`, the head node reports it online and
approved, close_step returns it in `re_drain`, yet after the tick its
state is still `Closing`, not `Draining`. -/
theorem re_drain_not_set_draining_bug :
    close_node_state_machine ["H5"] [⟨"H5", "Online", "OK", []⟩] false = ([], ["H5"]) ∧
    (lookupTbl (drain_and_stop_nodes
        ⟨[("H5", ⟨"H5", "H5.X", "a", "t", 1, 0, HpcState.Closing⟩)], []⟩
        (fun _ => [⟨"H5", "Online", "OK", []⟩])).table "H5").map SlaveInfo.state =
      some HpcState.Closing := by
  refine ⟨by decide, by decide⟩

/-- C2: the code contradicts this claim through the same line-325 slip.
With A and B both `Closing`, the head node reporting A unapproved (already
removed) and B online, close_step returns closed = ["A", "A"] and
re_drain = ["B"]; `_set_nodes_closed` sets A to `Closed` (firing the
callbacks for it), and then `_set_nodes_draining(closed_node_names)` moves
the freshly `Closed` A back to `Draining` within the same tick — no
`add_slaveinfo` involved. -/
theorem closed_reverted_to_draining_bug :
    close_node_state_machine ["A", "B"]
      [⟨"A", "Online", "Unapproved", []⟩, ⟨"B", "Online", "OK", []⟩] false =
      (["A", "A"], ["B"]) ∧
    (lookupTbl ((set_nodes_closed
        ⟨[("A", ⟨"A", "A.X", "a", "t", 1, 0, HpcState.Closing⟩),
          ("B", ⟨"B", "B.X", "a", "t", 1, 0, HpcState.Closing⟩)], []⟩
        ["A", "A"]).1.table) "A").map SlaveInfo.state = some HpcState.Closed ∧
    (lookupTbl (drain_and_stop_nodes
        ⟨[("A", ⟨"A", "A.X", "a", "t", 1, 0, HpcState.Closing⟩),
          ("B", ⟨"B", "B.X", "a", "t", 1, 0, HpcState.Closing⟩)], []⟩
        (fun _ => [⟨"A", "Online", "Unapproved", []⟩, ⟨"B", "Online", "OK", []⟩])).table
        "A").map SlaveInfo.state = some HpcState.Draining := by
  refine ⟨by decide, by decide, by decide⟩

/-- CallbackSpec abstracts one registered `node_closed` callback for the
dispatch loop of `_set_nodes_closed`: an identifier and whether invoking
it raises. -/
structure CallbackSpec where
  id : Nat
  raises : Bool
deriving DecidableEq, Repr

/-- dispatch_node_closed_callbacks models the loop
`for callback in self._node_closed_callbacks: callback(closed_nodes)` at
the end of `_set_nodes_closed`: each callback is invoked in order with the
`closed_nodes` list; the loop has no try/except (the catching helper
`_exec_callback` is never called there), so the first raising callback
aborts the loop and the exception escapes.  Returns the invocation log
(callback id, argument) and whether an exception escaped. -/
def dispatch_node_closed_callbacks : List CallbackSpec → List String →
    List (Nat × List String) × Bool
  | [], _ => ([], false)
  | c :: rest, closed_nodes =>
      if c.raises then ([(c.id, closed_nodes)], true)
      else
        let r := dispatch_node_closed_callbacks rest closed_nodes
        ((c.id, closed_nodes) :: r.1, r.2)

/-- C3: the code contradicts the exception half of this claim: with two
registered callbacks of which the first raises, the dispatch loop of
`_set_nodes_closed` invokes only the first and the exception escapes — the
remaining callback is never invoked, because the loop has no try/except.
(When no callback raises, each is invoked exactly once with the batch
list, as the claim's first half states.) -/
theorem callback_exception_aborts_dispatch :
    dispatch_node_closed_callbacks [⟨0, true⟩, ⟨1, false⟩] ["A"] = ([(0, ["A"])], true) ∧
    dispatch_node_closed_callbacks [⟨0, false⟩, ⟨1, false⟩] ["A"] =
      ([(0, ["A"]), (1, ["A"])], false) :=
  ⟨rfl, rfl⟩
